import Mathlib

/-!
Verification development for the tender-extraction pipeline
(`extract_nc_tenders.py`).

The Python source is shallowly embedded: pure helpers become Lean
functions on `List Char` / `String`; the behaviour of the external
collaborators the source calls into (`re`, `dateutil.parser`,
`datetime`, `urllib.parse`) is modelled from those libraries' actual
algorithms, restricted where noted to the character repertoire that the
source's own patterns admit (ASCII plus the Latin-1/Latin-Extended-A
letters appearing in the French text patterns).  Fallible Python code
(raising `ValueError` / `IndexError`, caught by the source's
`try/except`) is modelled with `Option`.
-/

namespace NCTenders

/-! ### Python character predicates

Modelled on CPython `str` methods.  Python's `isalpha`/`isspace`/`lower`
are full-Unicode; the model covers ASCII plus the Latin-1 Supplement and
Latin Extended-A letters, which include every non-ASCII character
admitted by the source's regular expressions (`é û ô à â î ï ù ç`,
`À-Ÿ`, `’`, `°`). -/

def cpOf (c : Char) : Nat := c.toNat

def pyIsDigit (c : Char) : Bool := decide ('0' ≤ c ∧ c ≤ '9')

def asciiUpper (c : Char) : Bool := decide ('A' ≤ c ∧ c ≤ 'Z')

def asciiLower (c : Char) : Bool := decide ('a' ≤ c ∧ c ≤ 'z')

/-- Letter test: ASCII letters plus Latin-1 Supplement / Latin
Extended-A letters (codepoints 0xC0-0x17F minus the two operators
0xD7 `×` and 0xF7 `÷`). -/
def pyIsAlpha (c : Char) : Bool :=
  asciiUpper c || asciiLower c ||
    decide (0xC0 ≤ cpOf c ∧ cpOf c ≤ 0x17F ∧ cpOf c ≠ 0xD7 ∧ cpOf c ≠ 0xF7)

/-- Whitespace test (the six ASCII whitespace characters; Python's
`isspace` and the regex class `\s` also accept some rarer Unicode
spaces, none of which the development's inputs contain). -/
def pyIsSpace (c : Char) : Bool :=
  decide (c = ' ' ∨ c = '\t' ∨ c = '\n' ∨ c = '\x0b' ∨ c = '\x0c' ∨ c = '\r')

def pyIsAlnum (c : Char) : Bool := pyIsAlpha c || pyIsDigit c

/-- Word character for the regex `\b` boundary (`\w`). -/
def isWordCh (c : Char) : Bool := pyIsAlnum c || c = '_'

/-- Lower-casing: ASCII `A-Z` and the Latin-1 uppercase letters
`À-Þ` (minus `×`) map down by 32, as in Unicode simple case folding;
other characters are unchanged. -/
def pyLower (c : Char) : Char :=
  if asciiUpper c then Char.ofNat (cpOf c + 32)
  else if decide (0xC0 ≤ cpOf c ∧ cpOf c ≤ 0xDE ∧ cpOf c ≠ 0xD7) then Char.ofNat (cpOf c + 32)
  else c

def lowerList (s : List Char) : List Char := s.map pyLower

/-- Python `str.strip()` (whitespace at both ends). -/
def pyStrip (s : List Char) : List Char :=
  ((s.dropWhile pyIsSpace).reverse.dropWhile pyIsSpace).reverse

def listStartsWith (pre s : List Char) : Bool :=
  decide (s.take pre.length = pre)

def listEndsWith (suf s : List Char) : Bool :=
  decide (s.reverse.take suf.length = suf.reverse)

/-- Python substring containment `sub in s` (contiguous). -/
def containsSub (sub : List Char) : List Char → Bool
  | [] => decide (sub = [])
  | c :: t => listStartsWith sub (c :: t) || containsSub sub t

def strContains (s sub : String) : Bool := containsSub sub.data s.data

/-- The source's `clean_text` core: `re.sub(r"\s+", " ", s)` —
collapse every whitespace run to one space. -/
def collapseWs : Bool → List Char → List Char
  | _, [] => []
  | prevWs, c :: t =>
    if pyIsSpace c then
      if prevWs then collapseWs true t else ' ' :: collapseWs true t
    else c :: collapseWs false t

def clean_text (s : Option String) : String :=
  match s with
  | none => ""
  | some s => ⟨pyStrip (collapseWs false s.data)⟩

/-! ### Calendar model (`datetime.date`, `calendar.monthrange`)

Translated from CPython's `datetime` module: proleptic Gregorian
calendar, years 1-9999. -/

structure PyDate where
  year : Nat
  month : Nat
  day : Nat
deriving DecidableEq, Repr

def isLeap (y : Nat) : Bool := decide (y % 4 = 0 ∧ (y % 100 ≠ 0 ∨ y % 400 = 0))

/-- Days in a month; `none` models `calendar.IllegalMonthError`. -/
def monthrange (y m : Nat) : Option Nat :=
  if m = 1 ∨ m = 3 ∨ m = 5 ∨ m = 7 ∨ m = 8 ∨ m = 10 ∨ m = 12 then some 31
  else if m = 4 ∨ m = 6 ∨ m = 9 ∨ m = 11 then some 30
  else if m = 2 then some (if isLeap y then 29 else 28)
  else none

/-- Validity check performed by `datetime.date` / `datetime.replace`. -/
def validDate (d : PyDate) : Bool :=
  decide (1 ≤ d.year) && decide (d.year ≤ 9999) &&
    match monthrange d.year d.month with
    | some dim => decide (1 ≤ d.day) && decide (d.day ≤ dim)
    | none => false

def daysBeforeMonth (m : Nat) (leap : Bool) : Nat :=
  let base :=
    match m with
    | 1 => 0 | 2 => 31 | 3 => 59 | 4 => 90 | 5 => 120 | 6 => 151
    | 7 => 181 | 8 => 212 | 9 => 243 | 10 => 273 | 11 => 304 | 12 => 334
    | _ => 0
  if leap ∧ m > 2 then base + 1 else base

/-- Proleptic-Gregorian ordinal, day 1 = 0001-01-01 (CPython
`date.toordinal`). -/
def toOrdinal (d : PyDate) : Nat :=
  let py := d.year - 1
  365 * py + py / 4 - py / 100 + py / 400 + daysBeforeMonth d.month (isLeap d.year) + d.day

/-- Inverse of `toOrdinal` (CPython `_ord2ymd`). -/
def fromOrdinal (nn : Nat) : PyDate :=
  let n0 := nn - 1
  let n400 := n0 / 146097
  let n1 := n0 % 146097
  let n100 := n1 / 36524
  let n2 := n1 % 36524
  let n4 := n2 / 1461
  let n3 := n2 % 1461
  let nY := n3 / 365
  let n := n3 % 365
  let year := n400 * 400 + 1 + n100 * 100 + n4 * 4 + nY
  if nY = 4 ∨ n100 = 4 then ⟨year - 1, 12, 31⟩
  else
    let leap := isLeap year
    let m0 := (n + 50) / 32
    if daysBeforeMonth m0 leap > n then
      ⟨year, m0 - 1, n - daysBeforeMonth (m0 - 1) leap + 1⟩
    else
      ⟨year, m0, n - daysBeforeMonth m0 leap + 1⟩

/-- Monday = 0, ..., Sunday = 6 (CPython `date.weekday`). -/
def weekdayOf (d : PyDate) : Nat := (toOrdinal d + 6) % 7

/-- The `dateutil` `relativedelta(weekday = w)` adjustment used by
`_build_naive`: move forward to the next date whose weekday is `w`
(staying put when it already is). -/
def advanceToWeekday (d : PyDate) (w : Nat) : PyDate :=
  fromOrdinal (toOrdinal d + (w + 7 - weekdayOf d) % 7)

def pad2 (n : Nat) : String := if n < 10 then "0" ++ toString n else toString n

def pad4 (n : Nat) : String :=
  if n < 10 then "000" ++ toString n
  else if n < 100 then "00" ++ toString n
  else if n < 1000 then "0" ++ toString n
  else toString n

/-- CPython `date.isoformat`. -/
def isoformat (d : PyDate) : String :=
  pad4 d.year ++ "-" ++ pad2 d.month ++ "-" ++ pad2 d.day

/-- Lexicographic comparison on (year, month, day) — agrees with
`datetime.date` ordering. -/
def dateLe (a b : PyDate) : Bool :=
  decide (a.year < b.year) ||
    (decide (a.year = b.year) &&
      (decide (a.month < b.month) || (decide (a.month = b.month) && decide (a.day ≤ b.day))))

/-- The source's `date.fromisoformat` use: parse a `YYYY-MM-DD` string
back into a date, failing (`ValueError`) on any other shape or an
invalid calendar date. -/
def fromisoformat (s : String) : Option PyDate :=
  match s.data with
  | [y1, y2, y3, y4, '-', m1, m2, '-', d1, d2] =>
    if pyIsDigit y1 && pyIsDigit y2 && pyIsDigit y3 && pyIsDigit y4 &&
        pyIsDigit m1 && pyIsDigit m2 && pyIsDigit d1 && pyIsDigit d2 then
      let num := fun (c : Char) => cpOf c - cpOf '0'
      let d : PyDate :=
        ⟨num y1 * 1000 + num y2 * 100 + num y3 * 10 + num y4,
         num m1 * 10 + num m2, num d1 * 10 + num d2⟩
      if validDate d then some d else none
    else none
  | _ => none

/-! ### Regex engine

A small backtracking matcher with CPython `re` semantics (ordered
alternation, greedy counted repetition, leftmost match).  Every
quantifier in the source's patterns applies to a single character
class, so repetition is only needed over classes.  The continuation
receives the consumed characters and the rest; returning `none` from
the continuation makes the engine backtrack, which reproduces
CPython's preference order exactly. -/

inductive RE where
  /-- Literal text; `ci` compares through `pyLower` (the `re.IGNORECASE`
  flag the source always sets). -/
  | lit (cs : List Char) (ci : Bool)
  /-- Greedy repetition `p\x7blo,hi\x7d` of a one-character class;
  `hi = none` means unbounded (`+`). -/
  | cls (p : Char → Bool) (lo : Nat) (hi : Option Nat)
  | seq (a b : RE)
  | alt (a b : RE)
  | eps

/-- Longest run of class characters at the head of `s`, capped at `hi`. -/
def classRun (p : Char → Bool) : Option Nat → List Char → Nat
  | _, [] => 0
  | hi, c :: t =>
    if hi = some 0 then 0
    else if p c then 1 + classRun p (hi.map (· - 1)) t
    else 0

/-- Greedy backtracking over the repetition count, from `lo + d` down
to `lo` (structural recursion on the excess `d`). -/
def clsTryAux {α : Type} (s : List Char) (lo : Nat)
    (k : List Char → List Char → Option α) : Nat → Option α
  | 0 => k (s.take lo) (s.drop lo)
  | d + 1 =>
    match k (s.take (lo + d + 1)) (s.drop (lo + d + 1)) with
    | some v => some v
    | none => clsTryAux s lo k d

/-- Greedy backtracking over the repetition count, from `n` down to `lo`. -/
def clsTry {α : Type} (s : List Char) (lo : Nat)
    (k : List Char → List Char → Option α) (n : Nat) : Option α :=
  if n < lo then none else clsTryAux s lo k (n - lo)

def litMatches (ci : Bool) (cs s : List Char) : Bool :=
  if ci then decide (lowerList (s.take cs.length) = lowerList cs)
  else decide (s.take cs.length = cs)

def reMatch {α : Type} : RE → List Char → (List Char → List Char → Option α) → Option α
  | .eps, s, k => k [] s
  | .lit cs ci, s, k =>
    if litMatches ci cs s then k (s.take cs.length) (s.drop cs.length) else none
  | .cls p lo hi, s, k =>
    let n := classRun p hi s
    if n < lo then none else clsTry s lo k n
  | .seq a b, s, k =>
    reMatch a s (fun m1 r1 => reMatch b r1 (fun m2 r2 => k (m1 ++ m2) r2))
  | .alt a b, s, k =>
    match reMatch a s k with
    | some v => some v
    | none => reMatch b s k

/-- One attempt of `pre` then a trailing captured `cap` at the current
position, returning the text captured by `cap`. -/
def tryCapAt (pre cap : RE) (s : List Char) : Option (List Char) :=
  reMatch pre s (fun _ r1 => reMatch cap r1 (fun m2 _ => some m2))

/-- Leftmost search (`re.search`) for `pre` followed by a trailing
captured group `cap` (all captures in the source's patterns are
pattern suffixes). -/
def reSearchCap (pre cap : RE) : List Char → Option (List Char)
  | [] => tryCapAt pre cap []
  | c :: t =>
    match tryCapAt pre cap (c :: t) with
    | some m => some m
    | none => reSearchCap pre cap t

/-- Word-boundary test between an optional previous character and the
head of the rest. -/
def boundaryAt (prev : Option Char) (s : List Char) : Bool :=
  (match prev with | some c => isWordCh c | none => false) !=
    (match s with | c :: _ => isWordCh c | [] => false)

/-- The `re.findall` scan for a pattern of the shape `\b body \b`:
leftmost matches, non-overlapping, scanning resumes at each match end
(CPython `finditer`; on an empty match the position advances by one). -/
def findallB (body : RE) : Option Char → List Char → Nat → List (List Char)
  | _, _, 0 => []
  | prev, s, fuel + 1 =>
    let step : List (List Char) :=
      match s with
      | [] => []
      | c :: t => findallB body (some c) t fuel
    if boundaryAt prev s then
      match reMatch body s
          (fun m r =>
            if boundaryAt (m.getLast?.orElse (fun _ => prev)) r then some (m, r) else none) with
      | some (m, r) =>
        if m.isEmpty then step
        else m :: findallB body m.getLast? r fuel
      | none => step
    else step

/-! ### The `dateutil` tokenizer (`_timelex`)

Faithful translation of `dateutil.parser._timelex.get_token`: tokens are
runs of letters or of digits (dots may glue pieces together, which are
split again afterwards when the token cannot be a decimal number);
every whitespace character becomes the single token `" "`; any other
character is a one-character token.  `\x00` characters are skipped at
read time. -/

inductive LexSt where
  | la | ln | lad | lnd
deriving DecidableEq

/-- Token accumulation loop; `acc` holds the token so far, reversed.
Returns (token, seenletters, final state, unconsumed rest). -/
def lexRun : LexSt → Bool → List Char → List Char → List Char × Bool × LexSt × List Char
  | st, seen, acc, [] => (acc.reverse, seen, st, [])
  | st, seen, acc, c :: t =>
    match st with
    | .la =>
      if pyIsAlpha c then lexRun .la true (c :: acc) t
      else if c = '.' then lexRun .lad true (c :: acc) t
      else (acc.reverse, true, st, c :: t)
    | .ln =>
      if pyIsDigit c then lexRun .ln seen (c :: acc) t
      else if c = '.' ∨ (c = ',' ∧ acc.length ≥ 2) then lexRun .lnd seen (c :: acc) t
      else (acc.reverse, seen, st, c :: t)
    | .lad =>
      if c = '.' ∨ pyIsAlpha c then lexRun .lad true (c :: acc) t
      else if pyIsDigit c ∧ acc.head? = some '.' then lexRun .lnd true (c :: acc) t
      else (acc.reverse, true, st, c :: t)
    | .lnd =>
      if c = '.' ∨ pyIsDigit c then lexRun .lnd seen (c :: acc) t
      else if pyIsAlpha c ∧ acc.head? = some '.' then lexRun .lad seen (c :: acc) t
      else (acc.reverse, seen, st, c :: t)

/-- Split a glued token on `.` and `,`, keeping the delimiters as
tokens of their own (`re.split("([.,])", token)`); the first piece is
kept unconditionally, later empty pieces are dropped. -/
def splitDots (tok : List Char) : List (List Char) :=
  let rec go (cur : List Char) : List Char → List (List Char)
    | [] => [cur.reverse]
    | c :: t =>
      if c = '.' ∨ c = ',' then cur.reverse :: [c] :: go [] t
      else go (c :: cur) t
  match go [] tok with
  | [] => [[]]
  | p :: rest => p :: rest.filter (fun x => !x.isEmpty)

def countDots (tok : List Char) : Nat := (tok.filter (fun c => c = '.')).length

/-- Post-processing of one lexed token (the tail of `get_token`). -/
def lexPost (tok : List Char) (seen : Bool) (st : LexSt) : List (List Char) :=
  if (st = .lad ∨ st = .lnd) ∧
      (seen ∨ countDots tok > 1 ∨ tok.getLast? = some '.' ∨ tok.getLast? = some ',') then
    splitDots tok
  else if st = .lnd ∧ countDots tok = 0 then
    [tok.map (fun c => if c = ',' then '.' else c)]
  else [tok]

def getToken : List Char → Option (List (List Char) × List Char)
  | [] => none
  | c :: t =>
    if pyIsAlpha c then
      let (tok, seen, st, rest) := lexRun .la false [c] t
      some (lexPost tok seen st, rest)
    else if pyIsDigit c then
      let (tok, seen, st, rest) := lexRun .ln false [c] t
      some (lexPost tok seen st, rest)
    else if pyIsSpace c then some ([[' ']], t)
    else some ([[c]], t)

def pyTokenizeAux : Nat → List Char → List (List Char)
  | 0, _ => []
  | fuel + 1, s =>
    match getToken s with
    | none => []
    | some (toks, rest) => toks ++ pyTokenizeAux fuel rest

def pyTokenize (s : List Char) : List (List Char) :=
  let s := s.filter (fun c => c ≠ '\x00')
  pyTokenizeAux (s.length + 1) s

/-! ### `dateutil` parserinfo tables -/

def infoMonth (tok : List Char) : Option Nat :=
  let l := lowerList tok
  if l = "jan".data ∨ l = "january".data then some 1
  else if l = "feb".data ∨ l = "february".data then some 2
  else if l = "mar".data ∨ l = "march".data then some 3
  else if l = "apr".data ∨ l = "april".data then some 4
  else if l = "may".data then some 5
  else if l = "jun".data ∨ l = "june".data then some 6
  else if l = "jul".data ∨ l = "july".data then some 7
  else if l = "aug".data ∨ l = "august".data then some 8
  else if l = "sep".data ∨ l = "sept".data ∨ l = "september".data then some 9
  else if l = "oct".data ∨ l = "october".data then some 10
  else if l = "nov".data ∨ l = "november".data then some 11
  else if l = "dec".data ∨ l = "december".data then some 12
  else none

def infoWeekday (tok : List Char) : Option Nat :=
  let l := lowerList tok
  if l = "mon".data ∨ l = "monday".data then some 0
  else if l = "tue".data ∨ l = "tuesday".data then some 1
  else if l = "wed".data ∨ l = "wednesday".data then some 2
  else if l = "thu".data ∨ l = "thursday".data then some 3
  else if l = "fri".data ∨ l = "friday".data then some 4
  else if l = "sat".data ∨ l = "saturday".data then some 5
  else if l = "sun".data ∨ l = "sunday".data then some 6
  else none

def infoHms (tok : List Char) : Option Nat :=
  let l := lowerList tok
  if l = "h".data ∨ l = "hour".data ∨ l = "hours".data then some 0
  else if l = "m".data ∨ l = "minute".data ∨ l = "minutes".data then some 1
  else if l = "s".data ∨ l = "second".data ∨ l = "seconds".data then some 2
  else none

def infoAmpm (tok : List Char) : Option Nat :=
  let l := lowerList tok
  if l = "am".data ∨ l = "a".data then some 0
  else if l = "pm".data ∨ l = "p".data then some 1
  else none

def infoJump (tok : List Char) : Bool :=
  let l := lowerList tok
  decide (l = " ".data ∨ l = ".".data ∨ l = ",".data ∨ l = ";".data ∨ l = "-".data ∨
    l = "/".data ∨ l = "'".data ∨ l = "at".data ∨ l = "on".data ∨ l = "and".data ∨
    l = "ad".data ∨ l = "m".data ∨ l = "t".data ∨ l = "of".data ∨ l = "st".data ∨
    l = "nd".data ∨ l = "rd".data ∨ l = "th".data)

def infoPertain (tok : List Char) : Bool :=
  decide (lowerList tok = "of".data)

def infoUtczone (tok : List Char) : Bool :=
  let l := lowerList tok
  decide (l = "utc".data ∨ l = "gmt".data ∨ l = "z".data)

def infoTzoffset (tok : List Char) : Option Int :=
  if infoUtczone tok then some 0 else none

/-- `parserinfo.convertyear`: two-digit years are moved into the
50-year window around the current year (`localtime().tm_year`, here
`curYear`). -/
def convertyear (curYear : Nat) (y : Nat) (centurySpecified : Bool) : Nat :=
  let century := curYear / 100 * 100
  if y < 100 ∧ ¬centurySpecified then
    let y := y + century
    if y ≥ curYear + 50 then y - 100
    else if y + 50 < curYear then y + 100
    else y
  else y

/-! ### Numeric tokens (`float` / `Decimal` model)

A finite decimal value is kept as its integer part plus the fractional
digit string; `float()` also accepts the words inf/infinity/nan, which
`_to_decimal` then rejects as non-finite (raising `ValueError`). -/

structure PyNum where
  ip : Nat
  fr : List Char
deriving DecidableEq, Repr

inductive NumVal where
  | fin (v : PyNum)
  | nonfinite
deriving DecidableEq

def digitsVal (s : List Char) : Nat :=
  s.foldl (fun a c => a * 10 + (cpOf c - cpOf '0')) 0

/-- Python `int(str)` on a token (digits only; tokens never carry
signs or surrounding whitespace). -/
def pyInt (s : List Char) : Option Nat :=
  if ¬s.isEmpty ∧ s.all pyIsDigit then some (digitsVal s) else none

/-- Python `float(token)` for lexer tokens: digit strings, one-dot
decimal strings, or the non-finite words. -/
def floatOf (tok : List Char) : Option NumVal :=
  if ¬tok.isEmpty ∧ tok.all pyIsDigit then some (.fin ⟨digitsVal tok, []⟩)
  else
    let a := tok.takeWhile pyIsDigit
    let rest := tok.dropWhile pyIsDigit
    match rest with
    | '.' :: b =>
      if ¬(a.isEmpty ∧ b.isEmpty) ∧ b.all pyIsDigit then some (.fin ⟨digitsVal a, b⟩)
      else none
    | _ =>
      let l := lowerList tok
      if l = "inf".data ∨ l = "infinity".data ∨ l = "nan".data then some .nonfinite
      else none

def PyNum.frNZ (v : PyNum) : Bool := decide (digitsVal v.fr ≠ 0)

/-- Decimal comparison `v > n` for a nonnegative decimal. -/
def PyNum.gtNat (v : PyNum) (n : Nat) : Bool :=
  decide (v.ip > n) || (decide (v.ip = n) && v.frNZ)

/-- Decimal comparison `v ≤ n`. -/
def PyNum.leNat (v : PyNum) (n : Nat) : Bool :=
  decide (v.ip < n) || (decide (v.ip = n) && !v.frNZ)

/-- Decimal comparison `v < n`. -/
def PyNum.ltNat (v : PyNum) (n : Nat) : Bool := decide (v.ip < n)

/-- Decimal comparison `v ≥ n`. -/
def PyNum.geNat (v : PyNum) (n : Nat) : Bool := decide (v.ip ≥ n)

/-- Python `int(60 * (value % 1))`. -/
def PyNum.sixtyFrac (v : PyNum) : Nat :=
  60 * digitsVal v.fr / 10 ^ v.fr.length

/-- `_parsems`: an `I[.F]` seconds string into (seconds, microseconds). -/
def parsems (tok : List Char) : Option (Nat × Nat) :=
  if ¬tok.contains '.' then do
    let s ← pyInt tok
    return (s, 0)
  else
    let a := tok.takeWhile (fun c => c ≠ '.')
    let b := (tok.dropWhile (fun c => c ≠ '.')).drop 1
    do
      let s ← pyInt a
      let m ← pyInt ((b ++ "000000".data).take 6)
      return (s, m)

/-! ### The `dateutil` year/month/day accumulator (`_ymd`) -/

structure Ymd where
  vals : List Nat
  centurySpecified : Bool
  dstridx : Option Nat
  mstridx : Option Nat
  ystridx : Option Nat
deriving Repr

def Ymd.empty : Ymd := ⟨[], false, none, none, none⟩

/-- Common tail of `_ymd.append`: push the integer and record the
label index; a repeated `M`/`D`/`Y` label raises `ValueError`. -/
def Ymd.pushLabeled (y : Ymd) (v : Nat) (label : Option Char) (cent : Bool) : Option Ymd :=
  let idx := y.vals.length
  let y := { y with vals := y.vals ++ [v], centurySpecified := y.centurySpecified || cent }
  match label with
  | some 'M' => if y.mstridx.isSome then none else some { y with mstridx := some idx }
  | some 'D' => if y.dstridx.isSome then none else some { y with dstridx := some idx }
  | some 'Y' => if y.ystridx.isSome then none else some { y with ystridx := some idx }
  | _ => some y

/-- `_ymd.append` with a string argument: a digit string longer than
two characters forces the `Y` label and marks the century as given;
`int()` then raises on a non-digit string. -/
def Ymd.appendStr (y : Ymd) (tok : List Char) (label : Option Char) : Option Ymd := do
  let lc ←
    if ¬tok.isEmpty ∧ tok.all pyIsDigit ∧ tok.length > 2 then
      match label with
      | none => some (some 'Y', true)
      | some 'Y' => some (some 'Y', true)
      | _ => none
    else some (label, false)
  let v ← pyInt tok
  y.pushLabeled v lc.1 lc.2

/-- `_ymd.append` with a numeric argument (`Decimal` / `int`): a value
over 100 forces the `Y` label. -/
def Ymd.appendNum (y : Ymd) (v : PyNum) (label : Option Char) : Option Ymd := do
  let lc ←
    if v.gtNat 100 then
      match label with
      | none => some (some 'Y', true)
      | some 'Y' => some (some 'Y', true)
      | _ => none
    else some (label, false)
  y.pushLabeled v.ip lc.1 lc.2

/-- `_ymd.could_be_day`. -/
def Ymd.couldBeDay (y : Ymd) (v : PyNum) : Option Bool :=
  if y.dstridx.isSome then some false
  else if y.mstridx.isNone then some (v.geNat 1 && v.leNat 31)
  else if y.ystridx.isNone then do
    let month ← y.vals[y.mstridx.getD 0]?
    let dim ← monthrange 2000 month
    return v.geNat 1 && v.leNat dim
  else do
    let month ← y.vals[y.mstridx.getD 0]?
    let year ← y.vals[y.ystridx.getD 0]?
    let dim ← monthrange year month
    return v.geNat 1 && v.leNat dim

/-- `_ymd._resolve_from_stridxs`: when all present values are labelled
(or three values carry two labels, fixing the third), read the triple
straight off the labels. -/
def resolveFromStridxs (vals : List Nat) (ys ms ds : Option Nat) :
    Option Nat × Option Nat × Option Nat :=
  let cnt := (if ys.isSome then 1 else 0) + (if ms.isSome then 1 else 0) +
    (if ds.isSome then 1 else 0)
  let filled :=
    if vals.length = 3 ∧ cnt = 2 then
      let used := [ys, ms, ds].filterMap id
      let missing := ([0, 1, 2].filter (fun i => ¬used.contains i)).headD 0
      if ys.isNone then (some missing, ms, ds)
      else if ms.isNone then (ys, some missing, ds)
      else (ys, ms, some missing)
    else (ys, ms, ds)
  (filled.1.bind (vals[·]?), filled.2.1.bind (vals[·]?), filled.2.2.bind (vals[·]?))

/-- `_ymd.resolve_ymd` — returns `(year, month, day)`; `none` models a
raised `ValueError`. -/
def Ymd.resolve (y : Ymd) (yearfirst dayfirst : Bool) :
    Option (Option Nat × Option Nat × Option Nat) :=
  let lenY := y.vals.length
  let cnt := (if y.ystridx.isSome then 1 else 0) + (if y.mstridx.isSome then 1 else 0) +
    (if y.dstridx.isSome then 1 else 0)
  if (lenY = cnt ∧ cnt > 0) ∨ (lenY = 3 ∧ cnt = 2) then
    some (resolveFromStridxs y.vals y.ystridx y.mstridx y.dstridx)
  else if lenY > 3 then none
  else if lenY = 1 ∨ (y.mstridx.isSome ∧ lenY = 2) then
    let month := y.mstridx.bind (y.vals[·]?)
    let other :=
      match y.mstridx with
      | some mi => if mi = 0 then y.vals.getLast? else y.vals[mi - 1]?
      | none => y.vals[0]?
    if lenY > 1 ∨ y.mstridx.isNone then
      match other with
      | some o => if o > 31 then some (some o, month, none) else some (none, month, some o)
      | none => some (none, month, none)
    else some (none, month, none)
  else if lenY = 2 then
    match y.vals with
    | [a, b] =>
      if a > 31 then some (some a, some b, none)
      else if b > 31 then some (some b, some a, none)
      else if dayfirst ∧ b ≤ 12 then some (none, some b, some a)
      else some (none, some a, some b)
    | _ => none
  else if lenY = 3 then
    match y.vals with
    | [a, b, c] =>
      match y.mstridx with
      | some 0 =>
        if b > 31 then some (some b, some a, some c)
        else some (some c, some a, some b)
      | some 1 =>
        if a > 31 ∨ (yearfirst ∧ c ≤ 31) then some (some a, some b, some c)
        else some (some c, some b, some a)
      | some 2 =>
        if b > 31 then some (some b, some c, some a)
        else some (some a, some c, some b)
      | _ =>
        if a > 31 ∨ y.ystridx = some 0 ∨ (yearfirst ∧ b ≤ 12 ∧ c ≤ 31) then
          if dayfirst ∧ c ≤ 12 then some (some a, some c, some b)
          else some (some a, some b, some c)
        else if a > 12 ∨ (dayfirst ∧ b ≤ 12) then some (some c, some b, some a)
        else some (some c, some a, some b)
    | _ => none
  else some (none, none, none)

/-! ### The `dateutil` parser proper (`parser._parse`) -/

structure PRes where
  year : Option Nat := none
  month : Option Nat := none
  day : Option Nat := none
  weekday : Option Nat := none
  hour : Option Nat := none
  minute : Option Nat := none
  second : Option Nat := none
  microsecond : Option Nat := none
  tzname : Option (List Char) := none
  tzoffset : Option Int := none
  ampm : Option Nat := none
deriving Repr

/-- `len(res) == 0` — no slot filled at all. -/
def PRes.isEmptyRes (r : PRes) : Bool :=
  r.year.isNone && r.month.isNone && r.day.isNone && r.weekday.isNone &&
    r.hour.isNone && r.minute.isNone && r.second.isNone && r.microsecond.isNone &&
    r.tzname.isNone && r.tzoffset.isNone && r.ampm.isNone

def adjustAmpm (hour ampm : Nat) : Nat :=
  if hour < 12 ∧ ampm = 1 then hour + 12
  else if hour = 12 ∧ ampm = 0 then 0
  else hour

/-- `parser._ampm_valid`; `none` models the `ValueError` raised in
strict mode. -/
def ampmValid (hour ampm : Option Nat) (fuzzy : Bool) : Option Bool :=
  let v1 := !(fuzzy && ampm.isSome)
  match hour with
  | none => if fuzzy then some false else none
  | some h => if ¬(h ≤ 12) then (if fuzzy then some false else none) else some v1

def couldBeTzname (hour : Option Nat) (tzname : Option (List Char))
    (tzoffset : Option Int) (tok : List Char) : Bool :=
  hour.isSome && tzname.isNone && tzoffset.isNone && decide (tok.length ≤ 5) &&
    (tok.all asciiUpper ||
      decide (tok = "UTC".data ∨ tok = "GMT".data ∨ tok = "Z".data ∨ tok = "z".data))

/-- Token access where the Python code has already checked the bound. -/
def tg (l : List (List Char)) (i : Nat) : List Char := l.getD i []

/-- `parser._find_hms_idx` (with `allow_jump` true, as at the call site). -/
def findHmsIdx (l : List (List Char)) (idx : Nat) : Option Nat :=
  let len := l.length
  if idx + 1 < len ∧ (infoHms (tg l (idx + 1))).isSome then some (idx + 1)
  else if idx + 2 < len ∧ tg l (idx + 1) = " ".data ∧ (infoHms (tg l (idx + 2))).isSome then
    some (idx + 2)
  else if 0 < idx ∧ (infoHms (tg l (idx - 1))).isSome then some (idx - 1)
  else if 1 < idx ∧ idx = len - 1 ∧ tg l (idx - 1) = " ".data ∧
      (infoHms (tg l (idx - 2))).isSome then some (idx - 2)
  else none

/-- `parser._parse_hms`. -/
def parseHms (l : List (List Char)) (idx : Nat) (hmsIdx : Option Nat) : Nat × Option Nat :=
  match hmsIdx with
  | none => (idx, none)
  | some hi =>
    if hi > idx then (hi, infoHms (tg l hi))
    else (idx, (infoHms (tg l hi)).map (· + 1))

/-- `parser._assign_hms`. -/
def assignHms (res : PRes) (v : PyNum) (tok : List Char) (hms : Nat) : Option PRes :=
  if hms = 0 then
    some { res with hour := some v.ip,
                    minute := if v.frNZ then some v.sixtyFrac else res.minute }
  else if hms = 1 then
    some { res with minute := some v.ip,
                    second := if v.frNZ then some v.sixtyFrac else none }
  else if hms = 2 then do
    let (s, m) ← parsems tok
    some { res with second := some s, microsecond := some m }
  else some res

structure PState where
  l : List (List Char)
  ymd : Ymd
  res : PRes
deriving Repr

/-- `parser._parse_numeric_token`, faithful branch-for-branch
translation; returns the updated index and state, `none` for a raised
`ValueError`/`IndexError`. -/
def parseNumericToken (st : PState) (idx : Nat) (fuzzy : Bool) : Option (Nat × PState) := do
  let l := st.l
  let tok := tg l idx
  let v : PyNum ←
    match floatOf tok with
    | some (.fin v) => some v
    | _ => none
  let lenLi := tok.length
  let len := l.length
  let ymd := st.ymd
  let res := st.res
  if ymd.vals.length = 3 ∧ (lenLi = 2 ∨ lenLi = 4) ∧ res.hour.isNone ∧
      (idx + 1 ≥ len ∨ (tg l (idx + 1) ≠ ":".data ∧ (infoHms (tg l (idx + 1))).isNone)) then
    let h ← pyInt (tok.take 2)
    let res := { res with hour := some h }
    let res ←
      if lenLi = 4 then do
        let mi ← pyInt (tok.drop 2)
        pure { res with minute := some mi }
      else pure res
    return (idx, { st with res })
  else if lenLi = 6 ∨ (lenLi > 6 ∧ tok.indexOf '.' = 6) then
    if ymd.vals.isEmpty ∧ ¬tok.contains '.' then do
      let y1 ← ymd.appendStr (tok.take 2) none
      let y2 ← y1.appendStr ((tok.drop 2).take 2) none
      let y3 ← y2.appendStr (tok.drop 4) none
      return (idx, { st with ymd := y3 })
    else do
      let h ← pyInt (tok.take 2)
      let mi ← pyInt ((tok.drop 2).take 2)
      let (s, micro) ← parsems (tok.drop 4)
      return (idx, { st with res :=
        { res with hour := some h, minute := some mi,
                   second := some s, microsecond := some micro } })
  else if lenLi = 8 ∨ lenLi = 12 ∨ lenLi = 14 then do
    let y1 ← ymd.appendStr (tok.take 4) (some 'Y')
    let y2 ← y1.appendStr ((tok.drop 4).take 2) none
    let y3 ← y2.appendStr ((tok.drop 6).take 2) none
    let res ←
      if lenLi > 8 then do
        let h ← pyInt ((tok.drop 8).take 2)
        let mi ← pyInt ((tok.drop 10).take 2)
        if lenLi > 12 then do
          let s ← pyInt (tok.drop 12)
          pure { res with hour := some h, minute := some mi, second := some s }
        else pure { res with hour := some h, minute := some mi }
      else pure res
    return (idx, { st with ymd := y3, res })
  else if (findHmsIdx l idx).isSome then
    let (idx2, hms) := parseHms l idx (findHmsIdx l idx)
    match hms with
    | some h => do
      let res ← assignHms res v tok h
      return (idx2, { st with res })
    | none => return (idx2, st)
  else if idx + 2 < len ∧ tg l (idx + 1) = ":".data then do
    let res := { res with hour := some v.ip }
    let v2 : PyNum ←
      match floatOf (tg l (idx + 2)) with
      | some (.fin v2) => some v2
      | _ => none
    let res := { res with minute := some v2.ip,
                          second := if v2.frNZ then some v2.sixtyFrac else none }
    if idx + 4 < len ∧ tg l (idx + 3) = ":".data then do
      let (s, micro) ← parsems (tg l (idx + 4))
      return (idx + 4, { st with res :=
        { res with second := some s, microsecond := some micro } })
    else
      return (idx + 2, { st with res })
  else if idx + 1 < len ∧
      (tg l (idx + 1) = "-".data ∨ tg l (idx + 1) = "/".data ∨ tg l (idx + 1) = ".".data) then do
    let sep := tg l (idx + 1)
    let y1 ← ymd.appendStr tok none
    if idx + 2 < len ∧ ¬infoJump (tg l (idx + 2)) then do
      let y2 ←
        if ¬(tg l (idx + 2)).isEmpty ∧ (tg l (idx + 2)).all pyIsDigit then
          y1.appendStr (tg l (idx + 2)) none
        else
          match infoMonth (tg l (idx + 2)) with
          | some m => y1.appendNum ⟨m, []⟩ (some 'M')
          | none => none
      if idx + 3 < len ∧ tg l (idx + 3) = sep then do
        let tok4 ← l[idx + 4]?
        let y3 ←
          match infoMonth tok4 with
          | some m => y2.appendNum ⟨m, []⟩ (some 'M')
          | none => y2.appendStr tok4 none
        return (idx + 4, { st with ymd := y3 })
      else
        return (idx + 2, { st with ymd := y2 })
    else
      return (idx + 1, { st with ymd := y1 })
  else if idx + 1 ≥ len ∨ infoJump (tg l (idx + 1)) then
    if idx + 2 < len ∧ (infoAmpm (tg l (idx + 2))).isSome then do
      let am := (infoAmpm (tg l (idx + 2))).getD 0
      let res := { res with hour := some (adjustAmpm v.ip am) }
      return (idx + 2, { st with res })
    else do
      let y1 ← ymd.appendNum v none
      return (idx + 1, { st with ymd := y1 })
  else if idx + 1 < len ∧ (infoAmpm (tg l (idx + 1))).isSome ∧ (v.geNat 0 && v.ltNat 24) then do
    let am := (infoAmpm (tg l (idx + 1))).getD 0
    let res := { res with hour := some (adjustAmpm v.ip am) }
    return (idx + 1, { st with res })
  else do
    let cbd ← ymd.couldBeDay v
    if cbd then do
      let y1 ← ymd.appendNum v none
      return (idx, { st with ymd := y1 })
    else if ¬fuzzy then none
    else return (idx, st)

/-- The `parser._parse` token loop.  `fuel` bounds the iteration count
(the index strictly increases, so `l.length + 2` suffices); `curYear`
stands for `time.localtime().tm_year` used by `convertyear`. -/
def parseLoop (curYear : Nat) (fuzzy : Bool) : Nat → Nat → PState → Option PState
  | 0, _, _ => none
  | fuel + 1, i, st =>
    if i ≥ st.l.length then some st
    else
      let tok := tg st.l i
      match floatOf tok with
      | some _ => do
        let (i2, st2) ← parseNumericToken st i fuzzy
        parseLoop curYear fuzzy fuel (i2 + 1) st2
      | none =>
        match infoWeekday tok with
        | some w =>
          parseLoop curYear fuzzy fuel (i + 1)
            { st with res := { st.res with weekday := some w } }
        | none =>
          match infoMonth tok with
          | some mval => do
            let y1 ← st.ymd.appendNum ⟨mval, []⟩ (some 'M')
            if i + 1 < st.l.length ∧
                (tg st.l (i + 1) = "-".data ∨ tg st.l (i + 1) = "/".data) then do
              let sep := tg st.l (i + 1)
              let tok2 ← st.l[i + 2]?
              let y2 ← y1.appendStr tok2 none
              if i + 3 < st.l.length ∧ tg st.l (i + 3) = sep then do
                let tok4 ← st.l[i + 4]?
                let y3 ← y2.appendStr tok4 none
                parseLoop curYear fuzzy fuel (i + 5) { st with ymd := y3 }
              else
                parseLoop curYear fuzzy fuel (i + 3) { st with ymd := y2 }
            else if i + 4 < st.l.length ∧ tg st.l (i + 1) = " ".data ∧
                tg st.l (i + 3) = " ".data ∧ infoPertain (tg st.l (i + 2)) then do
              let y2 ←
                if ¬(tg st.l (i + 4)).isEmpty ∧ (tg st.l (i + 4)).all pyIsDigit then
                  let value := digitsVal (tg st.l (i + 4))
                  y1.appendStr (toString (convertyear curYear value false)).data (some 'Y')
                else pure y1
              parseLoop curYear fuzzy fuel (i + 5) { st with ymd := y2 }
            else
              parseLoop curYear fuzzy fuel (i + 1) { st with ymd := y1 }
          | none =>
            match infoAmpm tok with
            | some av => do
              let valid ← ampmValid st.res.hour st.res.ampm fuzzy
              if valid then
                let h := st.res.hour.getD 0
                parseLoop curYear fuzzy fuel (i + 1)
                  { st with res :=
                    { st.res with hour := some (adjustAmpm h av), ampm := some av } }
              else
                parseLoop curYear fuzzy fuel (i + 1) st
            | none =>
              if couldBeTzname st.res.hour st.res.tzname st.res.tzoffset tok then
                let res := { st.res with tzname := some tok, tzoffset := infoTzoffset tok }
                if i + 1 < st.l.length ∧
                    (tg st.l (i + 1) = "+".data ∨ tg st.l (i + 1) = "-".data) then
                  let flip := if tg st.l (i + 1) = "+".data then "-".data else "+".data
                  let res := { res with tzoffset := none }
                  let res := if infoUtczone tok then { res with tzname := none } else res
                  parseLoop curYear fuzzy fuel (i + 1)
                    { st with l := st.l.set (i + 1) flip, res }
                else
                  parseLoop curYear fuzzy fuel (i + 1) { st with res }
              else if st.res.hour.isSome ∧ (tok = "+".data ∨ tok = "-".data) then do
                let signal : Int := if tok = "+".data then 1 else -1
                let nxt ← st.l[i + 1]?
                let lenLi := nxt.length
                let hmi ←
                  if lenLi = 4 then do
                    let h ← pyInt (nxt.take 2)
                    let m ← pyInt (nxt.drop 2)
                    pure (h, m, i)
                  else if i + 2 < st.l.length ∧ tg st.l (i + 2) = ":".data then do
                    let h ← pyInt nxt
                    let tok3 ← st.l[i + 3]?
                    let m ← pyInt tok3
                    pure (h, m, i + 2)
                  else if lenLi ≤ 2 then do
                    let h ← pyInt (nxt.take 2)
                    pure (h, 0, i)
                  else none
                let res := { st.res with
                  tzoffset := some (signal * ((hmi.1 : Int) * 3600 + (hmi.2.1 : Int) * 60)) }
                let i2 := hmi.2.2
                let ri :=
                  if i2 + 5 < st.l.length ∧ infoJump (tg st.l (i2 + 2)) ∧
                      tg st.l (i2 + 3) = "(".data ∧ tg st.l (i2 + 5) = ")".data ∧
                      3 ≤ (tg st.l (i2 + 4)).length ∧
                      couldBeTzname st.res.hour st.res.tzname none (tg st.l (i2 + 4)) then
                    ({ res with tzname := some (tg st.l (i2 + 4)) }, i2 + 4)
                  else (res, i2)
                parseLoop curYear fuzzy fuel (ri.2 + 2) { st with res := ri.1 }
              else if ¬(infoJump tok ∨ fuzzy) then none
              else
                parseLoop curYear fuzzy fuel (i + 1) st

/-- `parser._build_naive` plus `datetime.replace` validation and the
`relativedelta` weekday adjustment. -/
def buildNaive (res : PRes) (today : PyDate) : Option PyDate := do
  let cyear := res.year.getD today.year
  let cmonth := res.month.getD today.month
  let day ←
    match res.day with
    | some d => some d
    | none => do
      let dim ← monthrange cyear cmonth
      pure (if today.day > dim then dim else today.day)
  let theDate : PyDate := ⟨cyear, cmonth, day⟩
  if ¬validDate theDate then none
  else if ¬((match res.hour with | some h => decide (h ≤ 23) | none => true) &&
      (match res.minute with | some m => decide (m ≤ 59) | none => true) &&
      (match res.second with | some s => decide (s ≤ 59) | none => true) &&
      (match res.microsecond with | some m => decide (m ≤ 999999) | none => true)) then none
  else if res.weekday.isSome ∧ (res.day = none ∨ res.day = some 0) then
    some (advanceToWeekday theDate (res.weekday.getD 0 % 7))
  else
    some theDate

/-- `dateutil.parser.parse(s, dayfirst = True, fuzzy = True).date()`:
tokenize, run the parse loop, resolve the year/month/day triple
(`yearfirst = False`, `dayfirst = True`), convert two-digit years, and
build the date around `default = datetime.now()` (midnight `today`).
`none` models a raised `ParserError`. -/
def dtParse (s : List Char) (today : PyDate) : Option PyDate := do
  let l := pyTokenize s
  let st ← parseLoop today.year true (l.length + 2) 0 ⟨l, Ymd.empty, {}⟩
  let ymdTriple ← st.ymd.resolve false true
  let res := { st.res with
    year := ymdTriple.1, month := ymdTriple.2.1, day := ymdTriple.2.2 }
  let res :=
    match res.year with
    | some y => { res with year := some (convertyear today.year y st.ymd.centurySpecified) }
    | none => res
  if res.isEmptyRes then none
  else buildNaive res today

/-- `dateparser.parse(d, dayfirst=True, fuzzy=True).date().isoformat()`. -/
def dtParseIso (s : List Char) (today : PyDate) : Option String :=
  (dtParse s today).map isoformat

/-! ### The source's date regexes and `parse_dates_from_text` -/

/-- Class `[A-Za-zéûôàâîïùç]` under `re.IGNORECASE` (uppercase accented
letters match through their lowercase counterpart). -/
def monthLetter (c : Char) : Bool :=
  asciiUpper c || asciiLower c ||
    decide (pyLower c = 'é' ∨ pyLower c = 'û' ∨ pyLower c = 'ô' ∨ pyLower c = 'à' ∨
      pyLower c = 'â' ∨ pyLower c = 'î' ∨ pyLower c = 'ï' ∨ pyLower c = 'ù' ∨
      pyLower c = 'ç')

/-- Class `[\/\-\.\s]`. -/
def dateSepCh (c : Char) : Bool := decide (c = '/' ∨ c = '-' ∨ c = '.') || pyIsSpace c

def dCls : RE := .cls pyIsDigit 1 (some 2)

/-- Shape `\d{1,2}[\/\-\.\s]\d{1,2}[\/\-\.\s]\d{2,4}`. -/
def shapeA : RE :=
  .seq dCls (.seq (.cls dateSepCh 1 (some 1))
    (.seq dCls (.seq (.cls dateSepCh 1 (some 1)) (.cls pyIsDigit 2 (some 4)))))

/-- Shape `\d{4}[\/\-]\d{1,2}[\/\-]\d{1,2}`. -/
def shapeB : RE :=
  .seq (.cls pyIsDigit 4 (some 4))
    (.seq (.cls (fun c => decide (c = '/' ∨ c = '-')) 1 (some 1))
      (.seq dCls (.seq (.cls (fun c => decide (c = '/' ∨ c = '-')) 1 (some 1)) dCls)))

/-- Shape `\d{1,2}\s+[A-Za-zéûôàâîïùç]+\.?\s+\d{4}`. -/
def shapeC : RE :=
  .seq dCls (.seq (.cls pyIsSpace 1 none)
    (.seq (.cls monthLetter 1 none)
      (.seq (.cls (fun c => decide (c = '.')) 0 (some 1))
        (.seq (.cls pyIsSpace 1 none) (.cls pyIsDigit 4 (some 4))))))

/-- The generic scan's alternation (order as in the source). -/
def genericDateRE : RE := .alt shapeA (.alt shapeB shapeC)

/-- The generic scan: `re.findall(r"\b(?: ... )\b", text, re.IGNORECASE)`. -/
def findallDates (text : List Char) : List (List Char) :=
  findallB genericDateRE none text (text.length + 1)

/-- Labels of the deadline fallback, `re.IGNORECASE`, in source order. -/
def labelRE : RE :=
  .alt (.lit "date limite".data true)
    (.alt (.lit "clôture".data true)
      (.alt (.lit "date de dépôt".data true) (.lit "délais".data true)))

/-- Gap `[^\n\r]{0,120}` (greedy). -/
def gapRE : RE := .cls (fun c => decide (c ≠ '\n' ∧ c ≠ '\r')) 0 (some 120)

/-- Shape `\d{4}-\d{2}-\d{2}` — the fallback's third alternative,
stricter than the generic scan's `shapeB`. -/
def shapeD3 : RE :=
  .seq (.cls pyIsDigit 4 (some 4))
    (.seq (.lit "-".data false)
      (.seq (.cls pyIsDigit 2 (some 2))
        (.seq (.lit "-".data false) (.cls pyIsDigit 2 (some 2)))))

/-- The fallback's date alternation (source order: shape A, shape C,
then `\d{4}-\d{2}-\d{2}`). -/
def fallbackDateRE : RE := .alt shapeA (.alt shapeC shapeD3)

/-- The fallback `re.search`, returning `m.group(2)` — the captured
date-shaped substring following a deadline label within 120
characters. -/
def searchDeadline (text : List Char) : Option (List Char) :=
  reSearchCap (.seq labelRE gapRE) fallbackDateRE text

/-- The list of dates (ISO strings) successfully parsed from the
generic scan's matches — the `parsed` list of the source. -/
def parsedDates (text : String) (today : PyDate) : List String :=
  (findallDates text.data).filterMap (fun d => dtParseIso d today)

/-- Code-point lexicographic `≤` on character lists — Python's string
comparison. -/
def strLebL : List Char → List Char → Bool
  | [], _ => true
  | _ :: _, [] => false
  | a :: as, b :: bs =>
    if cpOf a < cpOf b then true
    else if cpOf b < cpOf a then false
    else strLebL as bs

/-- Python's `str` comparison `a <= b` (code-point lexicographic). -/
def strLeb (a b : String) : Bool := strLebL a.data b.data

/-- The comparison as a decidable relation, for sorting. -/
def strLeR (a b : String) : Prop := strLeb a b = true

instance : DecidableRel strLeR := fun a b => instDecidableEqBool (strLeb a b) true

/-- Python `list.sort()` on strings: ascending, code-point
lexicographic.  Over a total order the ascending rearrangement of a
list is unique up to equal elements, so any sound ascending sort
implements `list.sort`; insertion sort is used because it is
structurally recursive (kernel-reducible). -/
def pySortStr (l : List String) : List String :=
  l.insertionSort strLeR

/-- `parse_dates_from_text` (the Date Extractor), faithful to the
source: scan for the three generic date shapes, parse each match
day-first/fuzzy, sort the ISO strings, publication = first,
deadline = last when more than one element parsed; with no parsed
element, fall back to the labelled deadline search. -/
def parse_dates_from_text (text : String) (today : PyDate) :
    Option String × Option String :=
  if ¬(parsedDates text today).isEmpty then
    ((pySortStr (parsedDates text today)).head?,
     if (parsedDates text today).length > 1 then
       (pySortStr (parsedDates text today)).getLast?
     else none)
  else
    match searchDeadline text.data with
    | some cap =>
      match dtParseIso cap today with
      | some iso => (none, some iso)
      | none => (none, none)
    | none => (none, none)

/-- The pair produced by the generic branch alone (specification-side
decomposition of `parse_dates_from_text`). -/
def genericDatesResult (text : String) (today : PyDate) : Option String × Option String :=
  ((pySortStr (parsedDates text today)).head?,
   if (parsedDates text today).length > 1 then
     (pySortStr (parsedDates text today)).getLast?
   else none)

/-- The deadline produced by the labelled fallback search alone
(specification-side decomposition): the captured substring, when it
parses. -/
def labeledDeadline (text : String) (today : PyDate) : Option String :=
  (searchDeadline text.data).bind (fun cap => dtParseIso cap today)

/-! ### `stable_hash` and `upsert_appel`

`stable_hash` feeds SHA-256 the concatenation, over the parts, of the
stripped UTF-8 bytes of `p or ""` followed by the byte `"|"`, and
returns the hex digest.  The digest is modelled by its preimage
string: SHA-256 is deterministic, so equal preimages give equal
digests, and it is treated as injective (collision resistance), so
distinct preimages give distinct digests; UTF-8 encoding of
well-formed strings is itself injective and `errors="ignore"` never
fires on them. -/

def stable_hash (parts : List (Option String)) : String :=
  ⟨(parts.map (fun p => pyStrip ((p.getD "").data) ++ ['|'])).flatten⟩

structure AppelRec where
  url_source_id : String
  detail_url : String
  titre : String
  organisme : Option String
  reference : Option String
  date_publication : Option String
  date_limite : Option String
  statut : String
  extrait : Option String
  content_hash : String
deriving DecidableEq, Repr

/-- The record assembled by `upsert_appel` (the persistence upsert
itself is the external collaborator); `content_hash` is computed from
`(titre, organisme, detail_url, date_publication, date_limite,
extrait)` before the `titre or "(Sans titre)"` defaulting. -/
def upsert_appel_record (url_source_id detail_url titre : String)
    (organisme reference date_publication date_limite : Option String)
    (statut : String) (extrait : Option String) : AppelRec :=
  let chash := stable_hash
    [some titre, organisme, some detail_url, date_publication, date_limite, extrait]
  { url_source_id, detail_url,
    titre := if titre = "" then "(Sans titre)" else titre,
    organisme, reference, date_publication, date_limite, statut, extrait,
    content_hash := chash }

/-! ### `urllib.parse` model

`urlparse`/`urljoin` modelled from CPython's `urllib.parse`: scheme
split (lower-cased, letter-initial), `//netloc` up to `/?#`, path up
to `?#`; `urljoin` keeps a different-scheme or non-relative-scheme URL
whole, resolves `//netloc` and absolute paths against the base scheme,
and merges relative references segment-wise with `.`/`..` removal.
Path parameters (`;`) are not modelled separately. -/

def schemeCh (c : Char) : Bool :=
  asciiUpper c || asciiLower c || pyIsDigit c || decide (c = '+' ∨ c = '-' ∨ c = '.')

/-- Split a leading `scheme:` (lower-cased) off a URL, when present. -/
def splitSchemeOf (s : List Char) : Option (List Char × List Char) :=
  let pre := s.takeWhile (fun c => c ≠ ':')
  if pre.length < s.length ∧ ¬pre.isEmpty ∧
      (asciiUpper (pre.headD ' ') ∨ asciiLower (pre.headD ' ')) ∧ pre.all schemeCh then
    some (lowerList pre, s.drop (pre.length + 1))
  else none

structure UrlParts where
  scheme : String
  netloc : String
  path : String
deriving DecidableEq, Repr

def notNetlocEnd (c : Char) : Bool := decide (c ≠ '/' ∧ c ≠ '?' ∧ c ≠ '#')

def urlparseModel (u : String) : UrlParts :=
  let (scheme, rest) := (splitSchemeOf u.data).getD ([], u.data)
  let (netloc, rest2) :=
    if listStartsWith "//".data rest then
      ((rest.drop 2).takeWhile notNetlocEnd, (rest.drop 2).dropWhile notNetlocEnd)
    else ([], rest)
  ⟨⟨scheme⟩, ⟨netloc⟩, ⟨rest2.takeWhile (fun c => decide (c ≠ '?' ∧ c ≠ '#'))⟩⟩

/-- `urllib.parse.uses_relative` (the schemes for which relative
resolution applies). -/
def usesRelative (s : List Char) : Bool :=
  decide (s = [] ∨ s = "ftp".data ∨ s = "http".data ∨ s = "gopher".data ∨
    s = "nntp".data ∨ s = "imap".data ∨ s = "wais".data ∨ s = "file".data ∨
    s = "https".data ∨ s = "shttp".data ∨ s = "mms".data ∨ s = "prospero".data ∨
    s = "rtsp".data ∨ s = "rtspu".data ∨ s = "sftp".data ∨ s = "svn".data ∨
    s = "ws".data ∨ s = "wss".data)

/-- Split a URL remainder (after scheme/netloc) into path and the
query/fragment tail (kept verbatim). -/
def splitPathTail (s : List Char) : List Char × List Char :=
  (s.takeWhile (fun c => decide (c ≠ '?' ∧ c ≠ '#')),
   s.dropWhile (fun c => decide (c ≠ '?' ∧ c ≠ '#')))

/-- Split a path on `/` (CPython `str.split`, keeping empty pieces). -/
def splitSlash (s : List Char) : List (List Char) :=
  let rec go (cur : List Char) : List Char → List (List Char)
    | [] => [cur.reverse]
    | c :: t => if c = '/' then cur.reverse :: go [] t else go (c :: cur) t
  go [] s

def joinSlash (l : List (List Char)) : List Char :=
  match l with
  | [] => []
  | p :: rest => p ++ (rest.map (fun q => '/' :: q)).flatten

/-- The `..`/`.` resolution loop of `urljoin`. -/
def resolveSegs (segs : List (List Char)) : List (List Char) :=
  let step := fun (acc : List (List Char)) (seg : List Char) =>
    if seg = "..".data then acc.dropLast
    else if seg = ".".data then acc
    else acc ++ [seg]
  let r := segs.foldl step []
  if segs.getLast? = some "..".data ∨ segs.getLast? = some ".".data then r ++ [[]]
  else r

/-- `urllib.parse.urljoin`, for base URLs carrying a scheme and
netloc (as every listing URL does). -/
def urljoinModel (base url : String) : String :=
  if base = "" then url
  else if url = "" then base
  else
    let b := urlparseModel base
    let (scheme, rest) := (splitSchemeOf url.data).getD (b.scheme.data, url.data)
    if ¬(scheme = b.scheme.data) ∨ ¬usesRelative scheme then url
    else if listStartsWith "//".data rest then ⟨scheme ++ ':' :: rest⟩
    else
      let (path, tail) := splitPathTail rest
      if path.isEmpty then
        -- empty path: keep the base path (and base query when the
        -- reference has none, a case the pipeline never produces)
        ⟨scheme ++ "://".data ++ b.netloc.data ++ b.path.data ++ tail⟩
      else
        let segs :=
          if listStartsWith "/".data path then splitSlash path
          else
            let baseParts := (splitSlash b.path.data).dropLast
            let raw := baseParts ++ splitSlash path
            match raw with
            | [] => []
            | h :: t =>
              match (h :: t).getLast? with
              | some last =>
                h :: ((h :: t).drop 1).dropLast.filter (fun x => ¬x.isEmpty) ++ [last]
              | none => raw
        let resolved := joinSlash (resolveSegs segs)
        let resolved := if resolved.isEmpty then "/".data else resolved
        ⟨scheme ++ "://".data ++ b.netloc.data ++ resolved ++ tail⟩

/-! ### The link-candidate discoverer (`find_candidate_links`)

The `BeautifulSoup` anchor extraction is the external boundary: the
function is modelled over the list of `(href, anchor text)` pairs the
soup yields, in document order. -/

structure Anchor where
  href : String
  text : String
deriving DecidableEq, Repr

def LINK_KEYWORDS : List String :=
  ["appel", "offre", "march", "consult", "avis", "soumission", "aop", "aops",
   "notice", "detail", "fiche", "consultation"]

def likely_offer_link (href text : String) : Bool :=
  let l := lowerList (href.data ++ ' ' :: text.data)
  LINK_KEYWORDS.any (fun k => containsSub k.data l)

def pathKeywords : List String := ["detail", "avis", "consult", "offre", "notice", "fiche"]

def strStartsWith (s pre : String) : Bool := listStartsWith pre.data s.data

/-- The candidate accumulation loop of `find_candidate_links`
(`seen` coincides with membership in the accumulated list). -/
def fclGo (listing_url : String) : List Anchor → List String → List String
  | [], cand => cand
  | a :: rest, cand =>
    let href : String := ⟨pyStrip a.href.data⟩
    let absUrl := urljoinModel listing_url href
    if ¬(strStartsWith absUrl "http://" || strStartsWith absUrl "https://") then
      fclGo listing_url rest cand
    else if strStartsWith absUrl "mailto:" || strStartsWith absUrl "tel:" then
      fclGo listing_url rest cand
    else if likely_offer_link absUrl a.text ||
        pathKeywords.any (fun p => containsSub p.data (lowerList (urlparseModel absUrl).path.data)) then
      if cand.contains absUrl then fclGo listing_url rest cand
      else fclGo listing_url rest (cand ++ [absUrl])
    else if listEndsWith ".pdf".data (lowerList absUrl.data) && likely_offer_link absUrl a.text then
      if cand.contains absUrl then fclGo listing_url rest cand
      else fclGo listing_url rest (cand ++ [absUrl])
    else fclGo listing_url rest cand

/-- `find_candidate_links`, over the anchors of the fetched listing
page, capped at `MAX_DETAIL_PER_SITE = 200`. -/
def find_candidate_links (anchors : List Anchor) (listing_url : String) : List String :=
  (fclGo listing_url anchors []).take 200

/-- The same discoverer with the dedicated `.pdf` `elif` branch
removed — used to state that the branch is extensionally redundant. -/
def fclGoNoPdf (listing_url : String) : List Anchor → List String → List String
  | [], cand => cand
  | a :: rest, cand =>
    let href : String := ⟨pyStrip a.href.data⟩
    let absUrl := urljoinModel listing_url href
    if ¬(strStartsWith absUrl "http://" || strStartsWith absUrl "https://") then
      fclGoNoPdf listing_url rest cand
    else if strStartsWith absUrl "mailto:" || strStartsWith absUrl "tel:" then
      fclGoNoPdf listing_url rest cand
    else if likely_offer_link absUrl a.text ||
        pathKeywords.any (fun p => containsSub p.data (lowerList (urlparseModel absUrl).path.data)) then
      if cand.contains absUrl then fclGoNoPdf listing_url rest cand
      else fclGoNoPdf listing_url rest (cand ++ [absUrl])
    else fclGoNoPdf listing_url rest cand

def find_candidate_links_noPdfBranch (anchors : List Anchor) (listing_url : String) :
    List String :=
  (fclGoNoPdf listing_url anchors []).take 200

/-! ### The detail-page extractor (`parse_detail`)

`BeautifulSoup` itself is the external boundary: a `Soup` value records
exactly what the source reads from the parsed document — the first
`h1` (its `get_text(strip=True)` and `get_text(" ", strip=True)`
forms), the `og:title` meta element with its `content` attribute, the
document `title`, the flattened page text, and the `p`/`div` block
texts in document order.  `soupOf` maps a response body to its soup. -/

structure Soup where
  h1 : Option (String × String)
  ogTitle : Option (Option String)
  titleTag : Option String
  text : String
  blocks : List String

structure Response where
  contentType : Option String
  body : String

structure DetailRec where
  detail_url : String
  titre : Option String
  organisme : Option String
  reference : Option String
  date_publication : Option String
  date_limite : Option String
  extrait : Option String
  statut : String
deriving DecidableEq, Repr

/-- Title resolution: first `h1` with non-empty stripped text, else the
`og:title` meta content when present and non-empty, else the document
`title` element. -/
def titreOf (soup : Soup) : Option String :=
  let fromTitleTag : Option String := soup.titleTag.map (fun t => clean_text (some t))
  let fromOg : Option String :=
    match soup.ogTitle with
    | some (some content) =>
      if content ≠ "" then some (clean_text (some content)) else fromTitleTag
    | _ => fromTitleTag
  match soup.h1 with
  | some (tStrip, tSep) => if tStrip ≠ "" then some (clean_text (some tSep)) else fromOg
  | none => fromOg

/-- Class `[A-ZÀ-Ÿ]` under `re.IGNORECASE`: the ASCII letters (either
case) and codepoints 0xC0-0x178. -/
def orgHeadCh (c : Char) : Bool :=
  asciiUpper c || asciiLower c || decide (0xC0 ≤ cpOf c ∧ cpOf c ≤ 0x178)

/-- Class `[A-Za-z0-9 \-&'’]`. -/
def orgBodyCh (c : Char) : Bool :=
  asciiUpper c || asciiLower c || pyIsDigit c ||
    decide (c = ' ' ∨ c = '-' ∨ c = '&' ∨ c = '\'' ∨ c = '’')

/-- Class `[:\s\-]`. -/
def labelSepCh (c : Char) : Bool := decide (c = ':' ∨ c = '-') || pyIsSpace c

/-- Captured group `([A-ZÀ-Ÿ][A-Za-z0-9 \-&'’]{3,120})` of the four
organisation patterns. -/
def orgCapRE : RE := .seq (.cls orgHeadCh 1 (some 1)) (.cls orgBodyCh 3 (some 120))

/-- Pattern heads of the four organisation regexes, in source order. -/
def orgPre1 : RE := .seq (.lit "Organisme".data true) (.cls labelSepCh 0 (some 30))

def orgPre2 : RE :=
  .seq (.lit "Ma".data true)
    (.seq (.cls (fun c => decide (c = 'i' ∨ c = 'î' ∨ c = 'I' ∨ c = 'Î')) 1 (some 1))
      (.seq (.lit "tre d".data true)
        (.seq (.cls (fun c => decide (c = '\'' ∨ c = '’' ∨ c = ' ')) 1 (some 1))
          (.seq (.lit "ouvrage".data true) (.cls labelSepCh 0 (some 30))))))

def orgPre3 : RE :=
  .seq (.lit "Collectivit".data true)
    (.seq (.cls (fun c => decide (c = 'e' ∨ c = 'é' ∨ c = 'E' ∨ c = 'É')) 1 (some 1))
      (.cls (fun c => decide (c = ':' ∨ c = ' ' ∨ c = '-')) 0 (some 30)))

def orgPre4 : RE := .seq (.lit "Pouvoir adjudicateur".data true) (.cls labelSepCh 0 (some 30))

/-- The organisation loop: four labelled patterns tried in order,
first `re.search` hit wins, captured group normalised. -/
def organismeOf (text : String) : Option String :=
  match reSearchCap orgPre1 orgCapRE text.data with
  | some m => some (clean_text (some ⟨m⟩))
  | none =>
    match reSearchCap orgPre2 orgCapRE text.data with
    | some m => some (clean_text (some ⟨m⟩))
    | none =>
      match reSearchCap orgPre3 orgCapRE text.data with
      | some m => some (clean_text (some ⟨m⟩))
      | none =>
        match reSearchCap orgPre4 orgCapRE text.data with
        | some m => some (clean_text (some ⟨m⟩))
        | none => none

/-- Reference pattern: a label `Réf(?:érence)?`, `Ref\.?`, `N°` or
`No`, then `\s*`, then up to five separator characters, then the
captured code `[A-Z0-9.../.]{3,60}` (letters, digits, dash, slash,
dot); `re.IGNORECASE`; the raw second group is kept. -/
def refPreRE : RE :=
  .seq (.alt (.seq (.lit "Réf".data true) (.alt (.lit "érence".data true) .eps))
      (.alt (.seq (.lit "Ref".data true) (.cls (fun c => decide (c = '.')) 0 (some 1)))
        (.alt (.lit "N°".data true) (.lit "No".data true))))
    (.seq (.cls pyIsSpace 0 none) (.cls labelSepCh 0 (some 5)))

def refCapRE : RE :=
  .cls (fun c => asciiUpper c || asciiLower c || pyIsDigit c ||
    decide (c = '-' ∨ c = '/' ∨ c = '.')) 3 (some 60)

def referenceOf (text : String) : Option String :=
  (reSearchCap refPreRE refCapRE text.data).map (fun m => (⟨m⟩ : String))

/-- Excerpt: first `p`/`div` block whose normalised text has more than
60 characters, truncated to 600 characters. -/
def extraitOf : List String → Option String
  | [] => none
  | b :: rest =>
    let t := clean_text (some b)
    if t ≠ "" ∧ t.data.length > 60 then some ⟨t.data.take 600⟩ else extraitOf rest

/-- `parse_detail`.  `soupOf` is the BeautifulSoup collaborator,
`r = none` models `safe_get` returning `None` after its retries, and
`today` is `date.today()`.  The final `try/except` around the status
computation leaves the initial `"unknown"` in place when
`date.fromisoformat` raises. -/
def parse_detail (soupOf : String → Soup) (r : Option Response) (detail_url : String)
    (today : PyDate) : DetailRec :=
  let result : DetailRec := ⟨detail_url, none, none, none, none, none, none, "unknown"⟩
  match r with
  | none => result
  | some r =>
    let content_type : String := ⟨lowerList ((r.contentType.getD "").data)⟩
    if strContains content_type "application/pdf" ||
        listEndsWith ".pdf".data (lowerList detail_url.data) then
      { result with titre := some "Document PDF (voir pièce)",
                    extrait := some "PDF détecté — lecture manuelle conseillée." }
    else
      let soup := soupOf r.body
      let text := soup.text
      let pd := parse_dates_from_text text today
      let result :=
        { result with
          titre := titreOf soup
          organisme := organismeOf text
          reference := referenceOf text
          date_publication := pd.1
          date_limite := pd.2
          extrait := extraitOf soup.blocks }
      match result.date_limite with
      | some dl =>
        if dl ≠ "" then
          match fromisoformat dl with
          | some d => { result with statut := if dateLe today d then "open" else "closed" }
          | none => result
        else { result with statut := "published" }
      | none => { result with statut := "published" }

/-! ## Claim theorems -/

/-- Claim C8: for a detail URL whose fetch fails (no response after
retries), `parse_detail` returns a record with only `detail_url`
populated and status `"unknown"`, every other field absent — a normal
result, not a propagated error. -/
theorem C8_fetch_failure (soupOf : String → Soup) (url : String) (today : PyDate) :
    parse_detail soupOf none url today =
      ⟨url, none, none, none, none, none, none, "unknown"⟩ := rfl

/-- Witness for C8 at a concrete oracle, URL and date. -/
theorem C8_fetch_failure_witness :
    parse_detail (fun _ => ⟨none, none, none, "", []⟩) none "https://x.nc/a" ⟨2026, 10, 12⟩ =
      ⟨"https://x.nc/a", none, none, none, none, none, none, "unknown"⟩ :=
  C8_fetch_failure _ _ _

/-- Claim C9: the content fingerprint depends only on (title,
organization, detail_url, publication_date, deadline_date, excerpt) —
two upserted records agreeing on those six fields but differing in
status and/or reference get equal fingerprints. -/
theorem C9_fingerprint_frame (sid url t : String)
    (o ref1 ref2 dp dl ex : Option String) (st1 st2 : String) :
    (upsert_appel_record sid url t o ref1 dp dl st1 ex).content_hash =
      (upsert_appel_record sid url t o ref2 dp dl st2 ex).content_hash := rfl

/-- Witness for C9 at concrete field values. -/
theorem C9_fingerprint_frame_witness :
    (upsert_appel_record "s1" "https://x.nc/a" "T" (some "Org") none
        (some "2024-01-10") (some "2024-03-05") "open" (some "ex")).content_hash =
      (upsert_appel_record "s1" "https://x.nc/a" "T" (some "Org") (some "REF-1")
        (some "2024-01-10") (some "2024-03-05") "closed" (some "ex")).content_hash :=
  C9_fingerprint_frame "s1" "https://x.nc/a" "T" (some "Org") none (some "REF-1")
    (some "2024-01-10") (some "2024-03-05") (some "ex") "open" "closed"

/-- Claim C6: a response signalling PDF (content-type or `.pdf` URL
suffix) short-circuits `parse_detail`: the result is the fixed record
with the sentinel title and excerpt, all optional fields absent and
the default `"unknown"` status, independent of the body and of the
HTML parser (`soupOf` and `r.body` do not occur in the result). -/
theorem C6_pdf_shortcircuit (soupOf : String → Soup) (r : Response) (url : String)
    (today : PyDate)
    (h : (strContains (⟨lowerList ((r.contentType.getD "").data)⟩ : String) "application/pdf" ||
          listEndsWith ".pdf".data (lowerList url.data)) = true) :
    parse_detail soupOf (some r) url today =
      ⟨url, some "Document PDF (voir pièce)", none, none, none, none,
       some "PDF détecté — lecture manuelle conseillée.", "unknown"⟩ := by
  simp only [parse_detail]
  rw [if_pos h]

/-- Witness for C6: a PDF content-type with an HTML body and a soup
oracle that would extract plenty — all ignored. -/
theorem C6_pdf_shortcircuit_witness :
    parse_detail (fun _ => ⟨some ("X", "X"), none, none, "10/01/2024", ["y"]⟩)
      (some ⟨some "Application/PDF; charset=x", "<html>ignored</html>"⟩)
      "https://x.nc/doc" ⟨2026, 10, 12⟩ =
      ⟨"https://x.nc/doc", some "Document PDF (voir pièce)", none, none, none, none,
       some "PDF détecté — lecture manuelle conseillée.", "unknown"⟩ :=
  C6_pdf_shortcircuit _ _ _ _ (by decide)

/-- Claim C1 (counterexample): two distinct six-field tuples collide —
content containing the separator byte `|` shifted across the
title/organization boundary produces the same hash preimage, because
the separator also occurs in field values.  (A single field changed
only in surrounding whitespace collides likewise, by the `strip`.) -/
theorem C1_counterexample :
    ((some "Travaux|", some "Nouméa") : Option String × Option String) ≠
        (some "Travaux", some "|Nouméa") ∧
    stable_hash [some "Travaux|", some "Nouméa", some "https://x.nc/a",
        some "2024-01-10", some "2024-03-05", some "extrait"] =
      stable_hash [some "Travaux", some "|Nouméa", some "https://x.nc/a",
        some "2024-01-10", some "2024-03-05", some "extrait"] :=
  ⟨by decide, rfl⟩

/-- Claim C1 (amended): the fingerprint is deterministic — it depends
only on the trimmed field values, so tuples with equal trimmed fields
hash equally — and changing a single field does change the hash
whenever the trimmed value changes; unambiguity across field
boundaries fails only through `|`-containing or
whitespace-trimmed content (see the counterexample). -/
theorem C1_amended (pre post : List (Option String)) (p q : Option String)
    (hne : pyStrip ((p.getD "").data) ≠ pyStrip ((q.getD "").data)) :
    stable_hash (pre ++ p :: post) ≠ stable_hash (pre ++ q :: post) ∧
    ∀ xs ys : List (Option String),
      xs.map (fun x => pyStrip ((x.getD "").data)) =
        ys.map (fun y => pyStrip ((y.getD "").data)) →
      stable_hash xs = stable_hash ys := by
  constructor
  · intro heq
    apply hne
    have hdata : ((pre ++ p :: post).map
          (fun x => pyStrip ((x.getD "").data) ++ ['|'])).flatten =
        ((pre ++ q :: post).map
          (fun x => pyStrip ((x.getD "").data) ++ ['|'])).flatten := by
      simpa [stable_hash] using congrArg String.data heq
    rw [List.map_append, List.map_cons, List.flatten_append, List.flatten_cons,
        List.map_append, List.map_cons, List.flatten_append, List.flatten_cons] at hdata
    have h2 := List.append_cancel_left hdata
    rw [List.append_assoc, List.append_assoc] at h2
    have hlen : (pyStrip ((p.getD "").data)).length =
        (pyStrip ((q.getD "").data)).length := by
      have := congrArg List.length h2
      simp only [List.length_append] at this
      omega
    exact (List.append_inj h2 hlen).1
  · intro xs ys hmap
    have hjoin : xs.map (fun x => pyStrip ((x.getD "").data) ++ ['|']) =
        ys.map (fun y => pyStrip ((y.getD "").data) ++ ['|']) := by
      have h := congrArg (List.map (fun l : List Char => l ++ ['|'])) hmap
      rw [List.map_map, List.map_map] at h
      exact h
    simp [stable_hash, hjoin]

/-- Witness for C1 (amended), first part at a concrete single-field
change, second at concrete trim-equal tuples. -/
theorem C1_amended_witness :
    stable_hash [some "a", some "b"] ≠ stable_hash [some "c", some "b"] ∧
    stable_hash [some " a ", some "b"] = stable_hash [some "a", some "b"] :=
  ⟨(C1_amended [] [some "b"] (some "a") (some "c") (by decide)).1,
   (C1_amended [] [] (some "") (some "x") (by decide)).2
     [some " a ", some "b"] [some "a", some "b"] (by decide)⟩

/-- Claim C7 (code bug evidence): the generic scan recognises the
French date shape `"15 mars 2024"`, but `dateutil` knows only English
month names: in fuzzy mode `mars` is skipped, the remaining `15 2024`
resolves as month 15 / year 2024, an invalid month, so the parse is
discarded — for every current date the extractor returns
`(absent, absent)` instead of the claimed `("2024-03-15", absent)`. -/
theorem C7_french_month_degrades (today : PyDate) :
    findallDates "15 mars 2024".data = ["15 mars 2024".data] ∧
    parse_dates_from_text "15 mars 2024" today = (none, none) :=
  ⟨rfl, rfl⟩

/-- Claim C2 (counterexample): a text whose two date-shaped substrings
denote the same calendar date still gets a non-absent deadline — the
source tests `len(parsed) > 1`, not the number of distinct dates. -/
theorem C2_counterexample :
    parsedDates "10/01/2024 et 10/01/2024" ⟨2026, 10, 12⟩ =
        ["2024-01-10", "2024-01-10"] ∧
    parse_dates_from_text "10/01/2024 et 10/01/2024" ⟨2026, 10, 12⟩ =
      (some "2024-01-10", some "2024-01-10") :=
  ⟨rfl, rfl⟩

/-- Claim C3 (counterexample): in
`"99/99/99 date limite: X5-04-2024"` the generic scan does match
(`99/99/99`), yet the result is the labelled fallback's deadline
`2024-04-05` — the fallback runs whenever no match parses, not
exactly when no pattern matched. -/
theorem C3_counterexample :
    findallDates "99/99/99 date limite: X5-04-2024".data = ["99/99/99".data] ∧
    parse_dates_from_text "99/99/99 date limite: X5-04-2024" ⟨2026, 10, 12⟩ =
      (none, some "2024-04-05") :=
  ⟨rfl, rfl⟩

/-! Order facts for the string comparison used by `list.sort`. -/

theorem strLebL_refl : ∀ a : List Char, strLebL a a = true
  | [] => rfl
  | a :: as => by simp [strLebL, strLebL_refl as]

theorem strLebL_total : ∀ a b : List Char, strLebL a b = true ∨ strLebL b a = true
  | [], _ => Or.inl rfl
  | _ :: _, [] => Or.inr rfl
  | a :: as, b :: bs => by
    rcases Nat.lt_trichotomy (cpOf a) (cpOf b) with h | h | h
    · left; simp [strLebL, h]
    · have h1 : ¬cpOf a < cpOf b := by omega
      have h2 : ¬cpOf b < cpOf a := by omega
      simpa [strLebL, h1, h2] using strLebL_total as bs
    · right; simp [strLebL, h]

theorem strLebL_trans : ∀ a b c : List Char,
    strLebL a b = true → strLebL b c = true → strLebL a c = true
  | [], _, _ => by simp [strLebL]
  | _ :: _, [], _ => by simp [strLebL]
  | _ :: _, _ :: _, [] => by simp [strLebL]
  | a :: as, b :: bs, c :: cs => by
    intro hab hbc
    simp only [strLebL] at hab hbc ⊢
    by_cases hba : cpOf b < cpOf a
    · simp [show ¬cpOf a < cpOf b by omega, hba] at hab
    · by_cases hcb : cpOf c < cpOf b
      · simp [show ¬cpOf b < cpOf c by omega, hcb] at hbc
      · by_cases hac : cpOf a < cpOf c
        · simp [hac]
        · have e1 : ¬cpOf a < cpOf b := by omega
          have e2 : ¬cpOf b < cpOf c := by omega
          have e3 : ¬cpOf c < cpOf a := by omega
          simp only [if_neg e1, if_neg hba] at hab
          simp only [if_neg e2, if_neg hcb] at hbc
          simp only [if_neg hac, if_neg e3]
          exact strLebL_trans as bs cs hab hbc

instance : IsTotal String strLeR := ⟨fun a b => strLebL_total a.data b.data⟩

instance : IsTrans String strLeR :=
  ⟨fun a b c hab hbc => strLebL_trans a.data b.data c.data hab hbc⟩

/-- In a list pairwise-sorted by `strLeR`, the head is a lower bound. -/
theorem pairwise_head_lb : ∀ (l : List String), l.Pairwise strLeR →
    ∀ (hne : l ≠ []) (x : String), x ∈ l → strLeR (l.head hne) x
  | [], _, hne, _, _ => absurd rfl hne
  | a :: t, hp, _, x, hx => by
    rcases List.mem_cons.mp hx with rfl | hx
    · exact strLebL_refl x.data
    · exact (List.pairwise_cons.mp hp).1 x hx

/-- In a list pairwise-sorted by `strLeR`, the last element is an
upper bound. -/
theorem pairwise_getLast_ub : ∀ (l : List String), l.Pairwise strLeR →
    ∀ (hne : l ≠ []) (x : String), x ∈ l → strLeR x (l.getLast hne)
  | [], _, hne, _, _ => absurd rfl hne
  | [a], _, _, x, hx => by
    rcases List.mem_cons.mp hx with rfl | hx
    · exact strLebL_refl x.data
    · simp at hx
  | a :: b :: t, hp, hne, x, hx => by
    have hrec := pairwise_getLast_ub (b :: t) (List.pairwise_cons.mp hp).2 (by simp)
    rw [List.getLast_cons (by simp : (b :: t) ≠ [])]
    rcases List.mem_cons.mp hx with rfl | hx
    · exact strLebL_trans x.data b.data ((b :: t).getLast (by simp)).data
        ((List.pairwise_cons.mp hp).1 b (by simp)) (hrec b (by simp))
    · exact hrec x hx

/-- Claim C2 (amended): whenever at least one date-shaped substring
parses, publication is a minimum of the parsed ISO dates (the head of
the ascending sort) and deadline is a maximum of them exactly when
more than one substring parsed — counting duplicates, not distinct
dates (`strLeR` is code-point order, which on ISO dates is calendar
order). -/
theorem C2_amended (text : String) (today : PyDate)
    (h : parsedDates text today ≠ []) :
    ∃ m M,
      (parse_dates_from_text text today).1 = some m ∧
      m ∈ parsedDates text today ∧
      (∀ x ∈ parsedDates text today, strLeR m x) ∧
      M ∈ parsedDates text today ∧
      (∀ x ∈ parsedDates text today, strLeR x M) ∧
      (parse_dates_from_text text today).2 =
        (if 1 < (parsedDates text today).length then some M else none) := by
  have hperm : List.Perm (pySortStr (parsedDates text today)) (parsedDates text today) :=
    List.perm_insertionSort strLeR _
  have hsne : pySortStr (parsedDates text today) ≠ [] := by
    intro h0
    exact h (List.Perm.nil_eq (h0 ▸ hperm)).symm
  have hsorted : (pySortStr (parsedDates text today)).Pairwise strLeR :=
    List.sorted_insertionSort strLeR _
  have hne' : ¬(parsedDates text today).isEmpty := by
    simpa [List.isEmpty_iff] using h
  refine ⟨(pySortStr (parsedDates text today)).head hsne,
          (pySortStr (parsedDates text today)).getLast hsne, ?_, ?_, ?_, ?_, ?_, ?_⟩
  · show (parse_dates_from_text text today).1 = _
    unfold parse_dates_from_text
    rw [if_pos hne']
    exact List.head?_eq_head hsne
  · exact hperm.mem_iff.mp (List.head_mem hsne)
  · intro x hx
    exact pairwise_head_lb _ hsorted hsne x (hperm.mem_iff.mpr hx)
  · exact hperm.mem_iff.mp (List.getLast_mem hsne)
  · intro x hx
    exact pairwise_getLast_ub _ hsorted hsne x (hperm.mem_iff.mpr hx)
  · show (parse_dates_from_text text today).2 = _
    unfold parse_dates_from_text
    rw [if_pos hne', List.getLast?_eq_getLast _ hsne]

/-- Witness for C2 (amended) at a concrete two-date text. -/
theorem C2_amended_witness :
    ∃ m M,
      (parse_dates_from_text "10/01/2024 puis 05/03/2024" ⟨2026, 10, 12⟩).1 = some m ∧
      m ∈ parsedDates "10/01/2024 puis 05/03/2024" ⟨2026, 10, 12⟩ ∧
      (∀ x ∈ parsedDates "10/01/2024 puis 05/03/2024" ⟨2026, 10, 12⟩, strLeR m x) ∧
      M ∈ parsedDates "10/01/2024 puis 05/03/2024" ⟨2026, 10, 12⟩ ∧
      (∀ x ∈ parsedDates "10/01/2024 puis 05/03/2024" ⟨2026, 10, 12⟩, strLeR x M) ∧
      (parse_dates_from_text "10/01/2024 puis 05/03/2024" ⟨2026, 10, 12⟩).2 =
        (if 1 < (parsedDates "10/01/2024 puis 05/03/2024" ⟨2026, 10, 12⟩).length then
          some M else none) :=
  C2_amended "10/01/2024 puis 05/03/2024" ⟨2026, 10, 12⟩ (by decide)

/-- Claim C3 (amended): the labelled-deadline fallback is used exactly
when no generic match parsed (a matched but unparseable substring also
triggers it); when it runs, the result is `(absent, the parsed capture
of the label-then-date search)`, the capture being taken greedily
within the 120-character window and the third date shape being the
strict `YYYY-MM-DD` (two-digit, dash-only) one. -/
theorem C3_amended (text : String) (today : PyDate) :
    (parsedDates text today = [] →
      parse_dates_from_text text today = (none, labeledDeadline text today)) ∧
    (parsedDates text today ≠ [] →
      parse_dates_from_text text today = genericDatesResult text today) := by
  constructor
  · intro h
    have hempty : (parsedDates text today).isEmpty := by simp [h]
    unfold parse_dates_from_text labeledDeadline
    rw [if_neg (by simp [hempty])]
    rcases hsd : searchDeadline text.data with _ | cap
    · simp
    · rcases hdp : dtParseIso cap today with _ | iso <;> simp [hdp]
  · intro h
    have hne' : ¬(parsedDates text today).isEmpty := by
      simpa [List.isEmpty_iff] using h
    unfold parse_dates_from_text genericDatesResult
    rw [if_pos hne']

/-- Witness for C3 (amended): both directions at concrete texts. -/
theorem C3_amended_witness :
    parse_dates_from_text "99/99/99 date limite: X5-04-2024" ⟨2026, 10, 12⟩ =
      (none, labeledDeadline "99/99/99 date limite: X5-04-2024" ⟨2026, 10, 12⟩) ∧
    parse_dates_from_text "10/01/2024" ⟨2026, 10, 12⟩ =
      genericDatesResult "10/01/2024" ⟨2026, 10, 12⟩ :=
  ⟨(C3_amended "99/99/99 date limite: X5-04-2024" ⟨2026, 10, 12⟩).1 (by decide),
   (C3_amended "10/01/2024" ⟨2026, 10, 12⟩).2 (by decide)⟩

/-- The keep condition of the discoverer: an absolute http/https URL
resolved from one of the anchors, kept by keyword match on URL plus
anchor text, by a path keyword, or by the `.pdf`-with-keyword rule. -/
def keptUrl (listing_url : String) (anchors : List Anchor) (u : String) : Prop :=
  (strStartsWith u "http://" || strStartsWith u "https://") = true ∧
  ∃ a ∈ anchors,
    u = urljoinModel listing_url ⟨pyStrip a.href.data⟩ ∧
    (likely_offer_link u a.text = true ∨
      pathKeywords.any (fun p => containsSub p.data (lowerList (urlparseModel u).path.data)) = true ∨
      (listEndsWith ".pdf".data (lowerList u.data) = true ∧ likely_offer_link u a.text = true))

/-- Invariant of the candidate accumulation loop: it appends a block of
new URLs, each satisfying the keep condition, in first-appearance
order (a sublist of the resolved anchor sequence), without duplicates
and without re-adding seen URLs. -/
theorem fclGo_spec (listing_url : String) :
    ∀ (anchors : List Anchor) (cand : List String),
      ∃ extra,
        fclGo listing_url anchors cand = cand ++ extra ∧
        extra.Sublist (anchors.map (fun a => urljoinModel listing_url ⟨pyStrip a.href.data⟩)) ∧
        (∀ u ∈ extra, keptUrl listing_url anchors u ∧ u ∉ cand) ∧
        extra.Nodup := by
  intro anchors
  induction anchors with
  | nil =>
    intro cand
    exact ⟨[], by simp [fclGo], by simp, by simp, by simp⟩
  | cons a rest ih =>
    intro cand
    have hskip : ∃ extra,
        fclGo listing_url rest cand = cand ++ extra ∧
        extra.Sublist ((a :: rest).map (fun x => urljoinModel listing_url ⟨pyStrip x.href.data⟩)) ∧
        (∀ u ∈ extra, keptUrl listing_url (a :: rest) u ∧ u ∉ cand) ∧
        extra.Nodup := by
      obtain ⟨extra, he, hs, hk, hnd⟩ := ih cand
      refine ⟨extra, he, hs.cons _, ?_, hnd⟩
      intro u hu
      exact ⟨⟨(hk u hu).1.1,
        (hk u hu).1.2.imp fun x hx => ⟨List.mem_cons_of_mem a hx.1, hx.2⟩⟩, (hk u hu).2⟩
    have happ :
        (strStartsWith (urljoinModel listing_url ⟨pyStrip a.href.data⟩) "http://" ||
         strStartsWith (urljoinModel listing_url ⟨pyStrip a.href.data⟩) "https://") = true →
        (likely_offer_link (urljoinModel listing_url ⟨pyStrip a.href.data⟩) a.text = true ∨
         pathKeywords.any (fun p => containsSub p.data
           (lowerList (urlparseModel (urljoinModel listing_url ⟨pyStrip a.href.data⟩)).path.data)) = true ∨
         (listEndsWith ".pdf".data
            (lowerList (urljoinModel listing_url ⟨pyStrip a.href.data⟩).data) = true ∧
          likely_offer_link (urljoinModel listing_url ⟨pyStrip a.href.data⟩) a.text = true)) →
        ¬cand.contains (urljoinModel listing_url ⟨pyStrip a.href.data⟩) = true →
        ∃ extra,
          fclGo listing_url rest (cand ++ [urljoinModel listing_url ⟨pyStrip a.href.data⟩]) =
            cand ++ extra ∧
          extra.Sublist
            ((a :: rest).map (fun x => urljoinModel listing_url ⟨pyStrip x.href.data⟩)) ∧
          (∀ u ∈ extra, keptUrl listing_url (a :: rest) u ∧ u ∉ cand) ∧
          extra.Nodup := by
      intro hhttp hcond hnot
      obtain ⟨extra, he, hs, hk, hnd⟩ :=
        ih (cand ++ [urljoinModel listing_url ⟨pyStrip a.href.data⟩])
      refine ⟨urljoinModel listing_url ⟨pyStrip a.href.data⟩ :: extra, ?_, hs.cons₂ _, ?_, ?_⟩
      · rw [he, List.append_assoc]
        rfl
      · intro u hu
        rcases List.mem_cons.mp hu with rfl | hu
        · exact ⟨⟨hhttp, a, List.mem_cons_self a rest, rfl, hcond⟩,
            fun hmem => hnot (List.elem_iff.mpr hmem)⟩
        · exact ⟨⟨(hk u hu).1.1,
            (hk u hu).1.2.imp fun x hx => ⟨List.mem_cons_of_mem a hx.1, hx.2⟩⟩,
            fun hmem => (hk u hu).2 (List.mem_append_left _ hmem)⟩
      · refine List.nodup_cons.mpr ⟨fun hmem => ?_, hnd⟩
        exact (hk _ hmem).2 (List.mem_append_right _ (by simp))
    simp only [fclGo]
    split_ifs with h1 h2 h3 h4 h5 h6
    · exact hskip
    · exact hskip
    · refine happ h1 ?_ h4
      rcases Bool.or_eq_true_iff.mp h3 with h | h
      · exact Or.inl h
      · exact Or.inr (Or.inl h)
    · exact hskip
    · refine happ h1 ?_ h6
      have hp := Bool.and_eq_true_iff.mp h5
      exact Or.inr (Or.inr ⟨hp.1, hp.2⟩)
    · exact hskip
    · exact hskip


/-- Claim C4: the discoverer returns only absolute http/https URLs,
each kept by the keyword rule, the path rule, or the pdf-and-keyword
rule for some producing anchor; the result is deduplicated, ordered by
first appearance (a sublist of the resolved anchor sequence), capped
at 200; and on the concrete listing of the specification it returns
exactly the `avis` link. -/
theorem C4_discover (anchors : List Anchor) (listing_url : String) :
    (find_candidate_links anchors listing_url).length ≤ 200 ∧
    (find_candidate_links anchors listing_url).Nodup ∧
    (∀ u ∈ find_candidate_links anchors listing_url, keptUrl listing_url anchors u) ∧
    (find_candidate_links anchors listing_url).Sublist
      (anchors.map (fun a => urljoinModel listing_url ⟨pyStrip a.href.data⟩)) ∧
    find_candidate_links [⟨"/avis/123", "Avis de marché"⟩, ⟨"/contact", "Contact"⟩]
        "https://example.nc/list" = ["https://example.nc/avis/123"] := by
  obtain ⟨extra, he, hs, hk, hnd⟩ := fclGo_spec listing_url anchors []
  have hfcl : find_candidate_links anchors listing_url = extra.take 200 := by
    unfold find_candidate_links
    rw [he, List.nil_append]
  refine ⟨?_, ?_, ?_, ?_, ?_⟩
  · rw [hfcl]
    exact le_trans (le_of_eq (List.length_take _ _)) (min_le_left _ _)
  · rw [hfcl]
    exact hnd.sublist (List.take_sublist _ _)
  · intro u hu
    rw [hfcl] at hu
    exact (hk u ((List.take_sublist _ _).mem hu)).1
  · rw [hfcl]
    exact (List.take_sublist _ _).trans hs
  · rfl

/-- Witness for C4: the concrete listing example, extracted through the
theorem. -/
theorem C4_discover_witness :
    find_candidate_links [⟨"/avis/123", "Avis de marché"⟩, ⟨"/contact", "Contact"⟩]
        "https://example.nc/list" = ["https://example.nc/avis/123"] :=
  (C4_discover [] "").2.2.2.2

/-- The loop bodies with and without the `.pdf` `elif` agree: the
`elif` guard requires the keyword rule, which already fired the first
branch, so the branch is dead. -/
theorem fclGo_eq_noPdf (listing_url : String) :
    ∀ (anchors : List Anchor) (cand : List String),
      fclGo listing_url anchors cand = fclGoNoPdf listing_url anchors cand := by
  intro anchors
  induction anchors with
  | nil => intro cand; rfl
  | cons a rest ih =>
    intro cand
    simp only [fclGo, fclGoNoPdf]
    split_ifs with h1 h2 h3 h4 h5 h6 <;> try exact ih _
    all_goals
      exact absurd ((Bool.or_eq_true _ _).mpr
        (Or.inl ((Bool.and_eq_true _ _).mp h5).2)) h3

/-- Claim C10: the dedicated `.pdf` acceptance branch of the link
discoverer is extensionally redundant — the candidate list produced
with the branch equals the one produced without it, for every anchor
list and listing URL. -/
theorem C10_pdf_branch_redundant (anchors : List Anchor) (listing_url : String) :
    find_candidate_links anchors listing_url =
      find_candidate_links_noPdfBranch anchors listing_url := by
  unfold find_candidate_links find_candidate_links_noPdfBranch
  rw [fclGo_eq_noPdf]

/-- Witness for C10 at a concrete listing with a pdf anchor. -/
theorem C10_pdf_branch_redundant_witness :
    find_candidate_links [⟨"/docs/avis.pdf", "Appel"⟩, ⟨"/autre", "x"⟩] "https://example.nc/" =
      find_candidate_links_noPdfBranch [⟨"/docs/avis.pdf", "Appel"⟩, ⟨"/autre", "x"⟩]
        "https://example.nc/" :=
  C10_pdf_branch_redundant _ _

/-- Claim C5: on a successfully fetched, non-PDF detail page, the
extracted status is `"open"` when the resolved deadline is on or after
the current date and `"closed"` when before; with no resolved deadline
the status is `"published"`; and a failure of the date comparison
(`date.fromisoformat` raising) leaves the previously-set default
`"unknown"` instead of failing the extraction. -/
theorem C5_statut (soupOf : String → Soup) (r : Response) (url : String) (today : PyDate)
    (hpdf : (strContains (⟨lowerList ((r.contentType.getD "").data)⟩ : String) "application/pdf" ||
        listEndsWith ".pdf".data (lowerList url.data)) = false) :
    (∀ s d, (parse_detail soupOf (some r) url today).date_limite = some s →
      fromisoformat s = some d →
      (parse_detail soupOf (some r) url today).statut =
        (if dateLe today d then "open" else "closed")) ∧
    (∀ s, (parse_detail soupOf (some r) url today).date_limite = some s → s ≠ "" →
      fromisoformat s = none →
      (parse_detail soupOf (some r) url today).statut = "unknown") ∧
    ((parse_detail soupOf (some r) url today).date_limite = none →
      (parse_detail soupOf (some r) url today).statut = "published") := by
  have hcond : ¬(strContains (⟨lowerList ((r.contentType.getD "").data)⟩ : String)
      "application/pdf" || listEndsWith ".pdf".data (lowerList url.data)) = true := by
    simp [hpdf]
  rcases hpd : (parse_dates_from_text (soupOf r.body).text today).2 with _ | s0
  · refine ⟨?_, ?_, ?_⟩
    · intro s d h1 _
      exfalso
      simp [parse_detail, hcond, hpd] at h1
    · intro s h1 _ _
      exfalso
      simp [parse_detail, hcond, hpd] at h1
    · intro _
      simp [parse_detail, hcond, hpd]
  · by_cases hemp : s0 = ""
    · subst hemp
      refine ⟨?_, ?_, ?_⟩
      · intro s d h1 h2
        have hs : "" = s := by simpa [parse_detail, hcond, hpd] using h1
        rw [← hs] at h2
        rw [show fromisoformat "" = none from rfl] at h2
        exact Option.noConfusion h2
      · intro s h1 hne h2
        have hs : "" = s := by simpa [parse_detail, hcond, hpd] using h1
        exact absurd hs.symm hne
      · intro h1
        exfalso
        simp [parse_detail, hcond, hpd] at h1
    · rcases hfi : fromisoformat s0 with _ | d0
      · refine ⟨?_, ?_, ?_⟩
        · intro s d h1 h2
          have hs : s0 = s := by simpa [parse_detail, hcond, hpd, hemp, hfi] using h1
          rw [← hs, hfi] at h2
          exact Option.noConfusion h2
        · intro s h1 hne h2
          simp [parse_detail, hcond, hpd, hemp, hfi]
        · intro h1
          exfalso
          simp [parse_detail, hcond, hpd, hemp, hfi] at h1
      · refine ⟨?_, ?_, ?_⟩
        · intro s d h1 h2
          have hs : s0 = s := by simpa [parse_detail, hcond, hpd, hemp, hfi] using h1
          rw [← hs, hfi] at h2
          have hd : d0 = d := Option.some.inj h2
          subst hd
          simp [parse_detail, hcond, hpd, hemp, hfi]
        · intro s h1 hne h2
          have hs : s0 = s := by simpa [parse_detail, hcond, hpd, hemp, hfi] using h1
          rw [← hs, hfi] at h2
          exact Option.noConfusion h2
        · intro h1
          exfalso
          simp [parse_detail, hcond, hpd, hemp, hfi] at h1

/-- Witness for C5: a page whose flattened text carries a publication
date and a past deadline resolves to `"closed"`; one with no dates
resolves to `"published"`. -/
theorem C5_statut_witness :
    (parse_detail (fun _ => ⟨some ("T", "T"), none, none,
        "du 10/01/2024 au 05/03/2024", ["b"]⟩)
      (some ⟨some "text/html", "b"⟩) "https://x.nc/a" ⟨2026, 10, 12⟩).statut = "closed" ∧
    (parse_detail (fun _ => ⟨some ("T", "T"), none, none, "aucune date", ["b"]⟩)
      (some ⟨some "text/html", "b"⟩) "https://x.nc/a" ⟨2026, 10, 12⟩).statut = "published" :=
  ⟨((C5_statut (fun _ => ⟨some ("T", "T"), none, none,
        "du 10/01/2024 au 05/03/2024", ["b"]⟩)
      ⟨some "text/html", "b"⟩ "https://x.nc/a" ⟨2026, 10, 12⟩ (by decide)).1
      "2024-03-05" ⟨2024, 3, 5⟩ rfl rfl).trans (by decide),
   (C5_statut (fun _ => ⟨some ("T", "T"), none, none, "aucune date", ["b"]⟩)
      ⟨some "text/html", "b"⟩ "https://x.nc/a" ⟨2026, 10, 12⟩ (by decide)).2.2 rfl⟩

end NCTenders
